import Mathlib

/-!
Verification of the Kuramoto-model oscillatory network
(`pyclustering/nnet/sync/__init__.py`).

The Python source is shallowly embedded over the reals: the module-level
function `phase_normalization`, the methods `sync_local_order`,
`phase_kuramoto`, `allocate_sync_ensembles`, `_calculate_phases`,
`simulate_static` and `simulate_dynamic` of class `sync_network` become Lean
functions over an explicit network state.  Loops without a static bound
(the `while` loop of `phase_normalization` and the `while` loop of
`simulate_dynamic`) are embedded with an explicit fuel argument; fuel
exhaustion is observable (it returns the current value, resp. `none`), and
the theorems show termination, or condition only on genuine returns.
-/

noncomputable section

open scoped Classical BigOperators

/-- One fuel unit per iteration of the `while` loop of the source function
`phase_normalization` (lines 347-352): while the value is above `2 * pi` or
below `0`, subtract resp. add `2 * pi`.  With fuel `0` the current value is
returned as-is. -/
def phase_norm_loop : ℕ → ℝ → ℝ
  | 0, x => x
  | n + 1, x =>
    if 2 * Real.pi < x then phase_norm_loop n (x - 2 * Real.pi)
    else if x < 0 then phase_norm_loop n (x + 2 * Real.pi)
    else x

/-- Fuel that is always sufficient for `phase_norm_loop` (each loop
iteration moves the value by `2 * pi` towards the exit interval). -/
def phase_fuel (x : ℝ) : ℕ := Nat.ceil (|x| / (2 * Real.pi)) + 1

/-- Source function `phase_normalization` (lines 340-354). -/
def phase_normalization (teta : ℝ) : ℝ := phase_norm_loop (phase_fuel teta) teta

/-- State of class `sync_network` (local, non-CCORE branch).  `num_osc` and
`has_connection` are inherited from the base class `network`
(`pyclustering/nnet/__init__.py`, not part of the analysed sources); they are
modelled from the spec: the Connectivity collaborator answers
`has_connection(i, j) -> bool` and exposes the oscillator count, and is
immutable for the simulation's lifetime.  `odeint` models the external ODE
integrator `scipy.integrate.odeint` used by the RK4 branch of
`_calculate_phases`: an abstract collaborator producing the phase of
oscillator `index` at the end of the interval `[t - step, t)` with sub-step
`int_step`; its numeric output is left unconstrained. -/
structure sync_network where
  num_osc : ℕ
  weight : ℝ
  phases : ℕ → ℝ
  freq : ℕ → ℝ
  has_connection : ℕ → ℕ → Bool
  odeint : ℝ → ℝ → ℝ → ℕ → ℝ

/-- Source membership test of `allocate_sync_ensembles` (line 184):
`phases[i] < phases[neuron_index] + tolerance` and
`phases[i] > phases[neuron_index] - tolerance`. -/
def close_phases (phases : ℕ → ℝ) (tolerance : ℝ) (i m : ℕ) : Prop :=
  phases i < phases m + tolerance ∧ phases m - tolerance < phases i

/-- Scan of the existing clusters (outer `for cluster in clusters` loop of
`allocate_sync_ensembles`, lines 182-190): returns the cluster list with `i`
appended to the first cluster containing a close member, or `none` when no
cluster matches. -/
def tryInsert (phases : ℕ → ℝ) (tolerance : ℝ) (i : ℕ) :
    List (List ℕ) → Option (List (List ℕ))
  | [] => none
  | c :: rest =>
    if ∃ m ∈ c, close_phases phases tolerance i m then some ((c ++ [i]) :: rest)
    else Option.map (fun cs => c :: cs) (tryInsert phases tolerance i rest)

/-- Body of the `for i in range(1, num_osc)` loop of
`allocate_sync_ensembles` (lines 180-193): insert `i` into the first
matching cluster, else open a new singleton cluster at the end. -/
def allocate_step (phases : ℕ → ℝ) (tolerance : ℝ) (i : ℕ)
    (clusters : List (List ℕ)) : List (List ℕ) :=
  match tryInsert phases tolerance i clusters with
  | some cs => cs
  | none => clusters ++ [[i]]

/-- Source method `allocate_sync_ensembles` (lines 164-195, local branch):
cluster `[0]` seeds the list when the network is non-empty, then indices
`1 .. num_osc - 1` are processed in ascending order. -/
def allocate_sync_ensembles (net : sync_network) (tolerance : ℝ) : List (List ℕ) :=
  List.foldl (fun cs i => allocate_step net.phases tolerance i cs)
    (if 0 < net.num_osc then [[0]] else [])
    (List.range' 1 (net.num_osc - 1))

/-- Modelled from the spec (for the refinement claim about
`allocate_sync_ensembles` only): one step of the greedy first-fit described
in §4.4 — scan clusters in creation order and assign `i` to the first
cluster containing a member `m` with `|θ_i − θ_m| < tolerance` (appending at
the end of that cluster), else open a new singleton cluster. -/
def specAssign (phases : ℕ → ℝ) (tolerance : ℝ) (i : ℕ) :
    List (List ℕ) → List (List ℕ)
  | [] => [[i]]
  | c :: rest =>
    if ∃ m ∈ c, |phases i - phases m| < tolerance then (c ++ [i]) :: rest
    else c :: specAssign phases tolerance i rest

/-- Modelled from the spec (§4.4, refinement target): greedy first-fit by
index over a phase snapshot — index `0` seeds the first cluster, the
remaining indices are processed in ascending order. -/
def greedyFirstFit (phases : ℕ → ℝ) (tolerance : ℝ) (n : ℕ) : List (List ℕ) :=
  List.foldl (fun cs i => specAssign phases tolerance i cs) [[0]]
    (List.range' 1 (n - 1))

/-- Accumulator `num_neigh` of the source method `sync_local_order`
(lines 131-138): the number of ordered pairs `(i, j)` with a connection. -/
def num_neigh (net : sync_network) : ℕ :=
  ∑ i in Finset.range net.num_osc, ∑ j in Finset.range net.num_osc,
    if net.has_connection i j = true then 1 else 0

/-- Accumulator `exp_amount` of the source method `sync_local_order`
(lines 131-138): the sum of `exp(-abs(phases[j] - phases[i]))` over the
connected ordered pairs. -/
def exp_amount (net : sync_network) : ℝ :=
  ∑ i in Finset.range net.num_osc, ∑ j in Finset.range net.num_osc,
    if net.has_connection i j = true then Real.exp (-|net.phases j - net.phases i|)
    else 0

/-- Source method `sync_local_order` (lines 125-143, local branch): the
accumulated exponential sum divided by the pair count, where a zero count is
replaced by `1` before the division (lines 140-141). -/
def sync_local_order (net : sync_network) : ℝ :=
  exp_amount net / ((if num_neigh net = 0 then 1 else num_neigh net : ℕ) : ℝ)

/-- Ordered pairs `(i, j)` of oscillator indices with `has_connection i j`
(the set the spec sums over in §4.3). -/
def connected_pairs (net : sync_network) : Finset (ℕ × ℕ) :=
  (Finset.range net.num_osc ×ˢ Finset.range net.num_osc).filter
    (fun p => net.has_connection p.1 p.2 = true)

/-- Source method `phase_kuramoto` (lines 146-161): the phase derivative of
oscillator `index`, reading the frozen snapshot `net.phases`; the simulation
time `t` is accepted and ignored, exactly as in the source. -/
def phase_kuramoto (net : sync_network) (teta t : ℝ) (index : ℕ) : ℝ :=
  net.freq index +
    ((∑ k in Finset.range net.num_osc,
        if net.has_connection index k = true then Real.sin (net.phases k - teta)
        else 0) *
      net.weight / (net.num_osc : ℝ))

/-- Modelled from the spec: the solver tag enumeration `solve_type`
(`pyclustering/nnet/__init__.py`, not among the analysed sources).  The spec
(§4.2) names two supported strategies, FAST and RK4, selected by a tag; any
other tag is unsupported.  `OTHER s` stands for an arbitrary further tag
named `s`. -/
inductive solve_type where
  | FAST : solve_type
  | RK4 : solve_type
  | OTHER : String → solve_type

/-- Error message raised by `_calculate_phases` for an unsupported solver
(line 335 raises `NameError`, the spec calls it `UnsupportedSolverError`). -/
def unsupported_solver_msg (s : String) : String :=
  "Solver " ++ s ++ " is not supported"

/-- Concrete tag name used as witness input for the unsupported-solver
theorem. -/
def unknown_tag : String := "UNKNOWN"

/-- Body of the per-index loop of `_calculate_phases` (lines 325-335): FAST
performs one explicit step through `phase_kuramoto` at time `0` and
normalizes; RK4 integrates via the external `odeint` collaborator and
normalizes; any other tag raises. -/
def calc_phase_one (net : sync_network) (solution : solve_type)
    (t step int_step : ℝ) (index : ℕ) : Except String ℝ :=
  match solution with
  | solve_type.FAST =>
    Except.ok (phase_normalization
      (net.phases index + phase_kuramoto net (net.phases index) 0 index))
  | solve_type.RK4 =>
    Except.ok (phase_normalization (net.odeint t step int_step index))
  | solve_type.OTHER s => Except.error (unsupported_solver_msg s)

/-- The `for index in range(0, num_osc)` loop of `_calculate_phases`
(lines 325-335): fills the next-phase list left to right, propagating the
first raised error (the loop aborts at the first failing index). -/
def calc_loop (f : ℕ → Except String ℝ) : List ℕ → Except String (List ℝ)
  | [] => Except.ok []
  | i :: rest =>
    match f i with
    | Except.error e => Except.error e
    | Except.ok v =>
      match calc_loop f rest with
      | Except.error e => Except.error e
      | Except.ok vs => Except.ok (v :: vs)

/-- Source method `_calculate_phases` (lines 313-337): computes the list of
next phases without mutating the network (the source writes into the local
list `next_phases`; `self._phases` is only reassigned by the callers). -/
def _calculate_phases (net : sync_network) (solution : solve_type)
    (t step int_step : ℝ) : Except String (List ℝ) :=
  calc_loop (calc_phase_one net solution t step int_step) (List.range net.num_osc)

/-- Semantics of `numpy.arange(start, stop, step)` for a positive step, in
exact real arithmetic: the values `start + k * step` for
`k < ⌈(stop - start) / step⌉` (empty when `stop ≤ start`). -/
def numpy_arange (start stop step : ℝ) : List ℝ :=
  (List.range (Nat.ceil ((stop - start) / step))).map
    (fun (k : ℕ) => start + (k : ℝ) * step)

/-- Snapshot of the current phase list `self._phases` as a `List`. -/
def phases_list (net : sync_network) : List ℝ := (List.range net.num_osc).map net.phases

/-- Reassignment `self._phases = next_phases` performed by the simulation
loops (lines 246 and 300): only the phase vector changes. -/
def set_phases (net : sync_network) (ps : List ℝ) : sync_network :=
  sync_network.mk net.num_osc net.weight (fun i => ps.getD i 0) net.freq
    net.has_connection net.odeint

/-- Shape of the returned pair `(dyn_time, dyn_phase)`: parallel lists when
the dynamic is collected, a scalar time with the final phase vector when it
is not, or the Python pair `(None, None)` that `simulate_static` starts from
when `collect_dynamic` is false. -/
inductive dyn_output where
  | lists : List ℝ → List (List ℝ) → dyn_output
  | scalars : ℝ → List ℝ → dyn_output
  | none_pair : dyn_output

/-- Trajectory update of both simulation loops (lines 252-257 and 303-308):
append when collecting, else overwrite with the last values. -/
def static_append (collect : Bool) (out : dyn_output) (t : ℝ) (ps : List ℝ) :
    dyn_output :=
  if collect then
    match out with
    | dyn_output.lists ts phs => dyn_output.lists (ts ++ [t]) (phs ++ [ps])
    | o => o
  else dyn_output.scalars t ps

/-- The `for t in numpy.arange(...)` loop of `simulate_static`
(lines 298-308): one macro step per time stamp, threading the phase vector. -/
def static_loop (solution : solve_type) (step int_step : ℝ) (collect : Bool) :
    List ℝ → sync_network → dyn_output → Except String (sync_network × dyn_output)
  | [], net, out => Except.ok (net, out)
  | t :: ts, net, out =>
    match _calculate_phases net solution t step int_step with
    | Except.error e => Except.error e
    | Except.ok ps =>
      static_loop solution step int_step collect ts (set_phases net ps)
        (static_append collect out t ps)

/-- Source method `simulate_static` (lines 271-310, local branch):
`step = time / steps`, `int_step = step / 10`, macro steps at the times of
`numpy.arange(step, time + step, step)`; with `collect_dynamic` the series
are seeded with time `0` and the initial phases (lines 288-293). -/
def simulate_static (net : sync_network) (steps : ℕ) (time : ℝ)
    (solution : solve_type) (collect : Bool) :
    Except String (sync_network × dyn_output) :=
  static_loop solution (time / (steps : ℝ)) (time / (steps : ℝ) / 10) collect
    (numpy_arange (time / (steps : ℝ)) (time + time / (steps : ℝ)) (time / (steps : ℝ)))
    net
    (if collect then dyn_output.lists [0] [phases_list net] else dyn_output.none_pair)

/-- Observable state of `simulate_dynamic` at the moment of return: the
returned pair, whether the hang-prevention warning was printed (line 265),
and the values of the local variables `previous_order` and `current_order`. -/
structure dyn_result where
  output : dyn_output
  warned : Bool
  prev_order : ℝ
  final_order : ℝ

/-- The `while (current_order < order)` loop of `simulate_dynamic`
(lines 244-266), one fuel unit per iteration.  The source loop has no
iteration bound (the spec documents this liveness risk), so fuel exhaustion
inside the loop yields `none`: the theorems only speak about runs that
actually return.  The loop body advances one macro step, updates the
trajectory, recomputes the local order and breaks with a printed warning
when the order changed by less than `threshold` (lines 264-266). -/
def simulate_dynamic_loop (solution : solve_type) (collect : Bool)
    (order step int_step threshold : ℝ) :
    ℕ → sync_network → ℝ → ℝ → ℝ → dyn_output → Option (Except String dyn_result)
  | 0, _net, _tc, prev, cur, out =>
    if cur < order then none
    else some (Except.ok (dyn_result.mk out false prev cur))
  | fuel + 1, net, tc, prev, cur, out =>
    if cur < order then
      match _calculate_phases net solution tc step int_step with
      | Except.error e => some (Except.error e)
      | Except.ok ps =>
        let net2 := set_phases net ps
        let tc2 := tc + step
        let out2 := static_append collect out tc2 ps
        let cur2 := sync_local_order net2
        if |cur2 - cur| < threshold then
          some (Except.ok (dyn_result.mk out2 true cur cur2))
        else
          simulate_dynamic_loop solution collect order step int_step threshold fuel
            net2 tc2 cur cur2 out2
    else some (Except.ok (dyn_result.mk out false prev cur))

/-- Source method `simulate_dynamic` (lines 212-268, local branch):
`previous_order` starts at `0`, `current_order` at the initial local order;
with `collect_dynamic` the series are seeded (lines 239-241), otherwise both
start as the empty lists of lines 237-238. -/
def simulate_dynamic (net : sync_network) (order : ℝ) (solution : solve_type)
    (collect : Bool) (step int_step threshold : ℝ) (fuel : ℕ) :
    Option (Except String dyn_result) :=
  simulate_dynamic_loop solution collect order step int_step threshold fuel net 0 0
    (sync_local_order net)
    (if collect then dyn_output.lists [0] [phases_list net]
     else dyn_output.lists [] [])

/-- Example network: a single oscillator with no connections, zero weight,
zero phase and zero frequency (used as a concrete witness input). -/
def netA : sync_network := ⟨1, 0, fun _ => 0, fun _ => 0, fun _ _ => false, fun _ _ _ _ => 0⟩

/-- Example network: two oscillators, fully connected, zero phases (used as a
concrete witness input). -/
def netB : sync_network := ⟨2, 1, fun _ => 0, fun _ => 0, fun _ _ => true, fun _ _ _ _ => 0⟩

theorem phase_normalization_def (teta : ℝ) :
    phase_normalization teta = phase_norm_loop (phase_fuel teta) teta := rfl

theorem phase_norm_loop_succ (n : ℕ) (x : ℝ) :
    phase_norm_loop (n + 1) x =
      if 2 * Real.pi < x then phase_norm_loop n (x - 2 * Real.pi)
      else if x < 0 then phase_norm_loop n (x + 2 * Real.pi)
      else x := rfl

theorem phase_norm_loop_of_mem (n : ℕ) (x : ℝ) (h0 : 0 ≤ x) (h2 : x ≤ 2 * Real.pi) :
    phase_norm_loop n x = x := by
  cases n with
  | zero => rfl
  | succ n =>
    unfold phase_norm_loop
    rw [if_neg (not_lt.mpr h2), if_neg (not_lt.mpr h0)]

theorem phase_norm_loop_mem (n : ℕ) : ∀ x : ℝ, |x| ≤ 2 * Real.pi * ((n : ℝ) + 1) →
    0 ≤ phase_norm_loop (n + 1) x ∧ phase_norm_loop (n + 1) x ≤ 2 * Real.pi := by
  induction n with
  | zero =>
    intro x hx
    have hpi := Real.pi_pos
    rw [abs_le] at hx
    have hx1 := hx.1
    have hx2 := hx.2
    push_cast at hx1 hx2
    unfold phase_norm_loop
    rw [if_neg (by push_neg; linarith)]
    by_cases hneg : x < 0
    · rw [if_pos hneg]
      unfold phase_norm_loop
      constructor <;> linarith
    · rw [if_neg hneg]
      push_neg at hneg
      constructor <;> linarith
  | succ n ih =>
    intro x hx
    have hpi := Real.pi_pos
    rw [abs_le] at hx
    have hx1 := hx.1
    have hx2 := hx.2
    push_cast at hx1 hx2
    show 0 ≤ phase_norm_loop (n + 1 + 1) x ∧ phase_norm_loop (n + 1 + 1) x ≤ 2 * Real.pi
    unfold phase_norm_loop
    by_cases hgt : 2 * Real.pi < x
    · rw [if_pos hgt]
      refine ih (x - 2 * Real.pi) ?_
      rw [abs_le]
      constructor <;> linarith
    · rw [if_neg hgt]
      push_neg at hgt
      by_cases hneg : x < 0
      · rw [if_pos hneg]
        by_cases hterm : 0 ≤ x + 2 * Real.pi
        · rw [phase_norm_loop_of_mem (n + 1) _ hterm (by linarith)]
          constructor <;> linarith
        · push_neg at hterm
          refine ih (x + 2 * Real.pi) ?_
          rw [abs_le]
          constructor <;> linarith
      · rw [if_neg hneg]
        push_neg at hneg
        exact ⟨hneg, hgt⟩

theorem phase_fuel_bound (x : ℝ) :
    |x| ≤ 2 * Real.pi * ((Nat.ceil (|x| / (2 * Real.pi)) : ℝ) + 1) := by
  have hpi := Real.pi_pos
  have h2pi : (0 : ℝ) < 2 * Real.pi := by linarith
  have h1 : |x| / (2 * Real.pi) ≤ (Nat.ceil (|x| / (2 * Real.pi)) : ℝ) := Nat.le_ceil _
  rw [div_le_iff₀ h2pi] at h1
  nlinarith

/-- Running the loop with additional fuel is the same as running the loop on
the result of the first run: fuel only makes iterations of the source loop
explicit. -/
theorem phase_norm_loop_add (m : ℕ) : ∀ (n : ℕ) (x : ℝ),
    phase_norm_loop (n + m) x = phase_norm_loop m (phase_norm_loop n x) := by
  intro n
  induction n with
  | zero =>
    intro x
    rw [Nat.zero_add]
    rfl
  | succ n ih =>
    intro x
    rw [Nat.succ_add]
    show phase_norm_loop (n + m + 1) x = phase_norm_loop m (phase_norm_loop (n + 1) x)
    by_cases hgt : 2 * Real.pi < x
    · have e1 : phase_norm_loop (n + m + 1) x = phase_norm_loop (n + m) (x - 2 * Real.pi) := by
        rw [phase_norm_loop_succ, if_pos hgt]
      have e2 : phase_norm_loop (n + 1) x = phase_norm_loop n (x - 2 * Real.pi) := by
        rw [phase_norm_loop_succ, if_pos hgt]
      rw [e1, e2, ih]
    · by_cases hneg : x < 0
      · have e1 : phase_norm_loop (n + m + 1) x = phase_norm_loop (n + m) (x + 2 * Real.pi) := by
          rw [phase_norm_loop_succ, if_neg hgt, if_pos hneg]
        have e2 : phase_norm_loop (n + 1) x = phase_norm_loop n (x + 2 * Real.pi) := by
          rw [phase_norm_loop_succ, if_neg hgt, if_pos hneg]
        rw [e1, e2, ih]
      · push_neg at hgt hneg
        have e1 : phase_norm_loop (n + m + 1) x = x := phase_norm_loop_of_mem _ x hneg hgt
        have e2 : phase_norm_loop (n + 1) x = x := phase_norm_loop_of_mem _ x hneg hgt
        rw [e1, e2, phase_norm_loop_of_mem m x hneg hgt]

/-- C1 (amended): for every real input, `phase_normalization` returns a value
in the closed interval `[0, 2 * pi]`: at least `0` and at most `2 * pi`.  The
source loop exits as soon as the value is neither above `2 * pi` nor below
`0`, so the value `2 * pi` itself can be returned. -/
theorem phase_normalization_range_closed (teta : ℝ) :
    0 ≤ phase_normalization teta ∧ phase_normalization teta ≤ 2 * Real.pi := by
  rw [phase_normalization_def]
  exact phase_norm_loop_mem _ teta (phase_fuel_bound teta)

/-- C1 (counterexample): at the input `2 * pi` the function returns exactly
`2 * pi`, so the result is not strictly less than `2 * pi`: the claimed
half-open range `[0, 2 * pi)` fails. -/
theorem phase_normalization_two_pi :
    phase_normalization (2 * Real.pi) = 2 * Real.pi ∧
      ¬ (0 ≤ phase_normalization (2 * Real.pi) ∧
          phase_normalization (2 * Real.pi) < 2 * Real.pi) := by
  have hpi := Real.pi_pos
  have h : phase_normalization (2 * Real.pi) = 2 * Real.pi := by
    rw [phase_normalization_def]
    exact phase_norm_loop_of_mem _ _ (by linarith) le_rfl
  refine ⟨h, ?_⟩
  intro hc
  rw [h] at hc
  exact lt_irrefl _ hc.2

/-- C2: the normalization loop terminates for every real input: there is a
finite iteration count after which the value lies in `[0, 2 * pi]`, running
the loop any longer does not change the value (the loop has genuinely
stopped), and `phase_normalization` returns exactly that value. -/
theorem phase_normalization_terminates (teta : ℝ) :
    ∃ n : ℕ, (0 ≤ phase_norm_loop n teta ∧ phase_norm_loop n teta ≤ 2 * Real.pi) ∧
      (∀ m : ℕ, phase_norm_loop (n + m) teta = phase_norm_loop n teta) ∧
      phase_normalization teta = phase_norm_loop n teta := by
  refine ⟨phase_fuel teta, ?_, ?_, rfl⟩
  · exact phase_norm_loop_mem _ teta (phase_fuel_bound teta)
  · intro m
    have h := phase_norm_loop_mem (Nat.ceil (|teta| / (2 * Real.pi))) teta (phase_fuel_bound teta)
    rw [phase_norm_loop_add m (phase_fuel teta) teta]
    exact phase_norm_loop_of_mem m _ h.1 h.2

theorem close_phases_iff (phases : ℕ → ℝ) (tolerance : ℝ) (i m : ℕ) :
    close_phases phases tolerance i m ↔ |phases i - phases m| < tolerance := by
  rw [abs_sub_lt_iff]
  unfold close_phases
  constructor
  · rintro ⟨h1, h2⟩
    constructor <;> linarith
  · rintro ⟨h1, h2⟩
    constructor <;> linarith

theorem tryInsert_nil (phases : ℕ → ℝ) (tolerance : ℝ) (i : ℕ) :
    tryInsert phases tolerance i [] = none := rfl

theorem tryInsert_cons (phases : ℕ → ℝ) (tolerance : ℝ) (i : ℕ) (c : List ℕ)
    (rest : List (List ℕ)) :
    tryInsert phases tolerance i (c :: rest) =
      if ∃ m ∈ c, close_phases phases tolerance i m then some ((c ++ [i]) :: rest)
      else Option.map (fun cs => c :: cs) (tryInsert phases tolerance i rest) := rfl

theorem specAssign_cons (phases : ℕ → ℝ) (tolerance : ℝ) (i : ℕ) (c : List ℕ)
    (rest : List (List ℕ)) :
    specAssign phases tolerance i (c :: rest) =
      if ∃ m ∈ c, |phases i - phases m| < tolerance then (c ++ [i]) :: rest
      else c :: specAssign phases tolerance i rest := rfl

theorem allocate_step_eq_specAssign (phases : ℕ → ℝ) (tolerance : ℝ) (i : ℕ) :
    ∀ cl : List (List ℕ),
      allocate_step phases tolerance i cl = specAssign phases tolerance i cl := by
  intro cl
  induction cl with
  | nil => rfl
  | cons c rest ih =>
    by_cases hm : ∃ m ∈ c, close_phases phases tolerance i m
    · have hm2 : ∃ m ∈ c, |phases i - phases m| < tolerance := by
        obtain ⟨m, hmc, hcl⟩ := hm
        exact ⟨m, hmc, (close_phases_iff phases tolerance i m).mp hcl⟩
      unfold allocate_step
      rw [tryInsert_cons, if_pos hm, specAssign_cons, if_pos hm2]
    · have hm2 : ¬ ∃ m ∈ c, |phases i - phases m| < tolerance := by
        intro hc
        obtain ⟨m, hmc, hcl⟩ := hc
        exact hm ⟨m, hmc, (close_phases_iff phases tolerance i m).mpr hcl⟩
      rw [specAssign_cons, if_neg hm2, ← ih]
      unfold allocate_step
      rw [tryInsert_cons, if_neg hm]
      cases h : tryInsert phases tolerance i rest with
      | none => simp [h]
      | some r => simp [h]

theorem foldl_allocate_eq_spec (phases : ℕ → ℝ) (tolerance : ℝ) :
    ∀ (l : List ℕ) (init : List (List ℕ)),
      List.foldl (fun cs i => allocate_step phases tolerance i cs) init l =
        List.foldl (fun cs i => specAssign phases tolerance i cs) init l := by
  intro l
  induction l with
  | nil => intro init; rfl
  | cons a l ih =>
    intro init
    simp only [List.foldl_cons]
    rw [allocate_step_eq_specAssign, ih]

/-- C3: on every non-empty phase snapshot and every tolerance,
`allocate_sync_ensembles` computes exactly the greedy first-fit clustering
described by the spec: index `0` seeds the first cluster and each subsequent
index joins the first (in creation order) cluster containing a member `m`
with `|θ_i − θ_m| < tolerance` (strict two-sided bound), else opens a new
singleton cluster. -/
theorem allocate_sync_ensembles_greedy (net : sync_network) (tolerance : ℝ)
    (h : 1 ≤ net.num_osc) :
    allocate_sync_ensembles net tolerance =
      greedyFirstFit net.phases tolerance net.num_osc := by
  unfold allocate_sync_ensembles greedyFirstFit
  rw [if_pos (by omega : 0 < net.num_osc), foldl_allocate_eq_spec]

/-- C3 witness: the theorem applied to the concrete two-oscillator network. -/
theorem allocate_sync_ensembles_greedy_witness :
    1 ≤ netB.num_osc ∧
      allocate_sync_ensembles netB 1 = greedyFirstFit netB.phases 1 netB.num_osc :=
  ⟨by norm_num [netB], allocate_sync_ensembles_greedy netB 1 (by norm_num [netB])⟩

theorem count_singleton_eq (j i : ℕ) : List.count j [i] = if j = i then 1 else 0 := by
  by_cases h : j = i
  · simp [h]
  · simp [List.count_eq_zero, h]

theorem tryInsert_flatten_count (phases : ℕ → ℝ) (tolerance : ℝ) (i : ℕ) :
    ∀ cl cs : List (List ℕ), tryInsert phases tolerance i cl = some cs →
      ∀ j : ℕ, cs.flatten.count j = cl.flatten.count j + (if j = i then 1 else 0) := by
  intro cl
  induction cl with
  | nil =>
    intro cs h j
    rw [tryInsert_nil] at h
    exact absurd h (by simp)
  | cons c rest ih =>
    intro cs h j
    rw [tryInsert_cons] at h
    by_cases hm : ∃ m ∈ c, close_phases phases tolerance i m
    · rw [if_pos hm] at h
      obtain rfl : (c ++ [i]) :: rest = cs := Option.some_inj.mp h
      simp only [List.flatten_cons, List.count_append, count_singleton_eq]
      omega
    · rw [if_neg hm] at h
      cases hrest : tryInsert phases tolerance i rest with
      | none =>
        rw [hrest] at h
        exact absurd h (by simp)
      | some r =>
        rw [hrest] at h
        obtain rfl : c :: r = cs := by simpa using h
        have hr := ih r hrest j
        simp only [List.flatten_cons, List.count_append]
        omega

theorem allocate_step_flatten_count (phases : ℕ → ℝ) (tolerance : ℝ) (i : ℕ)
    (cl : List (List ℕ)) (j : ℕ) :
    (allocate_step phases tolerance i cl).flatten.count j =
      cl.flatten.count j + (if j = i then 1 else 0) := by
  unfold allocate_step
  cases h : tryInsert phases tolerance i cl with
  | none =>
    simp only [List.flatten_append, List.count_append, List.flatten_cons,
      List.flatten_nil, List.append_nil, count_singleton_eq]
  | some cs => exact tryInsert_flatten_count phases tolerance i cl cs h j

theorem foldl_allocate_flatten_count (phases : ℕ → ℝ) (tolerance : ℝ) :
    ∀ (l : List ℕ) (init : List (List ℕ)) (j : ℕ),
      ((List.foldl (fun cs i => allocate_step phases tolerance i cs) init l).flatten.count j) =
        init.flatten.count j + l.count j := by
  intro l
  induction l with
  | nil => intro init j; simp
  | cons a l ih =>
    intro init j
    simp only [List.foldl_cons]
    rw [ih, allocate_step_flatten_count]
    have hc : List.count j (a :: l) = List.count j l + (if j = a then 1 else 0) := by
      by_cases hja : j = a
      · simp [hja, List.count_cons_self]
      · simp [List.count_cons, hja]
    rw [hc]
    omega

/-- C4: the cluster list returned by `allocate_sync_ensembles` is a partition
of the oscillator indices: concatenating all clusters, every index below
`num_osc` occurs exactly once (so it lies in exactly one cluster and no
cluster repeats it), and no other index occurs at all. -/
theorem allocate_sync_ensembles_partition (net : sync_network) (tolerance : ℝ)
    (i : ℕ) :
    ((allocate_sync_ensembles net tolerance).flatten.count i) =
      if i < net.num_osc then 1 else 0 := by
  unfold allocate_sync_ensembles
  rw [foldl_allocate_flatten_count]
  rcases Nat.eq_zero_or_pos net.num_osc with h0 | hpos
  · rw [h0]
    simp
  · rw [if_pos hpos]
    have hcount : (List.range' 1 (net.num_osc - 1)).count i =
        if 1 ≤ i ∧ i < net.num_osc then 1 else 0 := by
      by_cases hmem : i ∈ List.range' 1 (net.num_osc - 1)
      · rw [List.count_eq_one_of_mem (List.nodup_range' 1 (net.num_osc - 1)) hmem]
        rw [List.mem_range'_1] at hmem
        rw [if_pos ⟨hmem.1, by omega⟩]
      · rw [List.count_eq_zero_of_not_mem hmem]
        rw [List.mem_range'_1] at hmem
        rw [if_neg (by omega)]
    rw [hcount]
    have hflat : (([[0]] : List (List ℕ)).flatten) = [0] := rfl
    rw [hflat, count_singleton_eq]
    split_ifs <;> omega

theorem num_neigh_eq_card (net : sync_network) :
    num_neigh net = (connected_pairs net).card := by
  unfold num_neigh connected_pairs
  rw [Finset.card_filter, Finset.sum_product]

theorem exp_amount_eq_sum (net : sync_network) :
    exp_amount net =
      ∑ p in connected_pairs net, Real.exp (-|net.phases p.2 - net.phases p.1|) := by
  unfold exp_amount connected_pairs
  rw [Finset.sum_filter, Finset.sum_product]

theorem ite_zero_eq_max (k : ℕ) : (if k = 0 then 1 else k) = max 1 k := by
  cases k with
  | zero => rfl
  | succ k =>
    rw [if_neg (Nat.succ_ne_zero k)]
    exact (Nat.max_eq_right (Nat.succ_le_succ (Nat.zero_le k))).symm

/-- C5: `sync_local_order` equals the sum of `exp(−|θ_j − θ_i|)` over all
connected ordered pairs divided by `max 1 (number of such pairs)`, and in
particular the denominator is strictly positive: a network with no
connections divides by `1`, never by `0`. -/
theorem sync_local_order_spec (net : sync_network) :
    sync_local_order net =
        (∑ p in connected_pairs net, Real.exp (-|net.phases p.2 - net.phases p.1|)) /
          ((max 1 (connected_pairs net).card : ℕ) : ℝ) ∧
      (0 : ℝ) < ((max 1 (connected_pairs net).card : ℕ) : ℝ) := by
  constructor
  · unfold sync_local_order
    rw [exp_amount_eq_sum, num_neigh_eq_card, ite_zero_eq_max]
  · have h1 : (1 : ℕ) ≤ max 1 (connected_pairs net).card := le_max_left 1 _
    have : (0 : ℕ) < max 1 (connected_pairs net).card := lt_of_lt_of_le Nat.zero_lt_one h1
    exact_mod_cast this

/-- C6: `phase_kuramoto` returns
`freq_index + (weight / num_osc) * Σ_{k connected to index} sin(θ_k − teta)`
over the current snapshot, and the simulation-time argument has no influence
on the result (the embedding is a pure function of the snapshot, which is
therefore not modified). -/
theorem phase_kuramoto_spec (net : sync_network) (teta t s : ℝ) (index : ℕ) :
    phase_kuramoto net teta t index =
        net.freq index +
          (net.weight / (net.num_osc : ℝ)) *
            (∑ k in Finset.range net.num_osc,
              if net.has_connection index k = true then Real.sin (net.phases k - teta)
              else 0) ∧
      phase_kuramoto net teta t index = phase_kuramoto net teta s index := by
  constructor
  · unfold phase_kuramoto
    ring
  · rfl

/-- C7: for a solver tag that is neither FAST nor RK4 and a non-empty
network, the per-step phase computation fails with the unsupported-solver
error, raised at the very first oscillator index: the result is exactly the
error, no partial phase list exists, and since the embedding threads state
explicitly the caller's phase vector is untouched (`simulate_static` and
`simulate_dynamic` propagate the error without calling `set_phases`). -/
theorem calculate_phases_unsupported (net : sync_network) (solution : solve_type)
    (t step int_step : ℝ) (h1 : solution ≠ solve_type.FAST)
    (h2 : solution ≠ solve_type.RK4) (hn : 1 ≤ net.num_osc) :
    ∃ s, solution = solve_type.OTHER s ∧
      _calculate_phases net solution t step int_step =
        Except.error (unsupported_solver_msg s) := by
  obtain ⟨s, rfl⟩ : ∃ s, solution = solve_type.OTHER s := by
    cases solution with
    | FAST => exact absurd rfl h1
    | RK4 => exact absurd rfl h2
    | OTHER s => exact ⟨s, rfl⟩
  refine ⟨s, rfl, ?_⟩
  unfold _calculate_phases
  obtain ⟨k, hk⟩ : ∃ k, net.num_osc = k + 1 := ⟨net.num_osc - 1, by omega⟩
  rw [hk, List.range_succ_eq_map]
  rfl

/-- C7 witness: the theorem applied to the single-oscillator network and the
concrete unsupported tag `OTHER unknown_tag`. -/
theorem calculate_phases_unsupported_witness :
    ∃ s, solve_type.OTHER unknown_tag = solve_type.OTHER s ∧
      _calculate_phases netA (solve_type.OTHER unknown_tag) 0 1 1 =
        Except.error (unsupported_solver_msg s) :=
  calculate_phases_unsupported netA (solve_type.OTHER unknown_tag) 0 1 1
    (fun h => solve_type.noConfusion h) (fun h => solve_type.noConfusion h)
    (le_refl 1)

theorem calc_loop_ok (f : ℕ → Except String ℝ) (hf : ∀ i, ∃ v, f i = Except.ok v) :
    ∀ l : List ℕ, ∃ vs, calc_loop f l = Except.ok vs := by
  intro l
  induction l with
  | nil => exact ⟨[], rfl⟩
  | cons i rest ih =>
    obtain ⟨v, hv⟩ := hf i
    obtain ⟨vs, hvs⟩ := ih
    refine ⟨v :: vs, ?_⟩
    simp only [calc_loop]
    rw [hv, hvs]

theorem calculate_phases_ok (net : sync_network) (solution : solve_type)
    (t step int_step : ℝ)
    (h : solution = solve_type.FAST ∨ solution = solve_type.RK4) :
    ∃ ps, _calculate_phases net solution t step int_step = Except.ok ps := by
  apply calc_loop_ok
  intro i
  rcases h with rfl | rfl
  · exact ⟨_, rfl⟩
  · exact ⟨_, rfl⟩

theorem static_loop_nil (solution : solve_type) (step int_step : ℝ) (collect : Bool)
    (net : sync_network) (out : dyn_output) :
    static_loop solution step int_step collect [] net out = Except.ok (net, out) := rfl

theorem static_loop_cons (solution : solve_type) (step int_step : ℝ) (collect : Bool)
    (t : ℝ) (ts : List ℝ) (net : sync_network) (out : dyn_output) :
    static_loop solution step int_step collect (t :: ts) net out =
      match _calculate_phases net solution t step int_step with
      | Except.error e => Except.error e
      | Except.ok ps =>
        static_loop solution step int_step collect ts (set_phases net ps)
          (static_append collect out t ps) := rfl

theorem static_loop_ok (solution : solve_type) (step int_step : ℝ)
    (h : solution = solve_type.FAST ∨ solution = solve_type.RK4) :
    ∀ (ts : List ℝ) (net : sync_network) (times : List ℝ) (phs : List (List ℝ)),
      ∃ net2 phs2,
        static_loop solution step int_step true ts net (dyn_output.lists times phs) =
          Except.ok (net2, dyn_output.lists (times ++ ts) phs2) ∧
        phs2.length = phs.length + ts.length := by
  intro ts
  induction ts with
  | nil =>
    intro net times phs
    exact ⟨net, phs, by rw [static_loop_nil, List.append_nil], by simp⟩
  | cons t ts ih =>
    intro net times phs
    obtain ⟨ps, hps⟩ := calculate_phases_ok net solution t step int_step h
    obtain ⟨net2, phs2, hloop, hlen⟩ := ih (set_phases net ps) (times ++ [t]) (phs ++ [ps])
    refine ⟨net2, phs2, ?_, ?_⟩
    · rw [static_loop_cons, hps]
      show static_loop solution step int_step true ts (set_phases net ps)
          (static_append true (dyn_output.lists times phs) t ps) =
        Except.ok (net2, dyn_output.lists (times ++ t :: ts) phs2)
      have happ : static_append true (dyn_output.lists times phs) t ps =
          dyn_output.lists (times ++ [t]) (phs ++ [ps]) := rfl
      rw [happ, hloop, ← List.append_cons]
    · rw [hlen]
      simp
      omega

theorem numpy_arange_static (time : ℝ) (steps : ℕ) (h1 : 0 < steps) (h2 : 0 < time) :
    numpy_arange (time / (steps : ℝ)) (time + time / (steps : ℝ)) (time / (steps : ℝ)) =
      (List.range steps).map
        (fun (k : ℕ) => time / (steps : ℝ) + (k : ℝ) * (time / (steps : ℝ))) := by
  unfold numpy_arange
  have hsr : (0 : ℝ) < (steps : ℝ) := by exact_mod_cast h1
  have he : (time + time / (steps : ℝ) - time / (steps : ℝ)) / (time / (steps : ℝ)) =
      ((steps : ℕ) : ℝ) := by
    rw [add_sub_cancel_right, div_div_eq_mul_div, mul_comm, mul_div_assoc,
      div_self (ne_of_gt h2), mul_one]
  rw [he, Nat.ceil_natCast]

theorem times_pairwise (steps : ℕ) (step : ℝ) (h : 0 < step) :
    ((0 : ℝ) :: (List.range steps).map
        (fun (k : ℕ) => step + (k : ℝ) * step)).Pairwise (· < ·) := by
  rw [List.pairwise_cons]
  constructor
  · intro x hx
    obtain ⟨k, _, rfl⟩ := List.mem_map.mp hx
    have hk : (0 : ℝ) ≤ (k : ℝ) * step := mul_nonneg (Nat.cast_nonneg k) (le_of_lt h)
    linarith
  · rw [List.pairwise_map]
    refine List.Pairwise.imp ?_ (List.pairwise_lt_range steps)
    intro a b hab
    have hab2 : (a : ℝ) < (b : ℝ) := by exact_mod_cast hab
    nlinarith

/-- C8: static simulation with a supported solver, positive `steps = N` and
positive total time, collecting the dynamic, performs exactly `N` macro
steps of size `time / steps` and returns a time series and a phase series of
length `N + 1` each (initial state included), the time stamps being `0`
followed by `step, 2·step, …, N·step`, strictly increasing. -/
theorem simulate_static_collect_spec (net : sync_network) (steps : ℕ) (time : ℝ)
    (solution : solve_type) (hsteps : 0 < steps) (htime : 0 < time)
    (hsol : solution = solve_type.FAST ∨ solution = solve_type.RK4) :
    ∃ net2 times2 phs2,
      simulate_static net steps time solution true =
        Except.ok (net2, dyn_output.lists times2 phs2) ∧
      times2 = (0 : ℝ) :: (List.range steps).map
        (fun (k : ℕ) => time / (steps : ℝ) + (k : ℝ) * (time / (steps : ℝ))) ∧
      times2.length = steps + 1 ∧ phs2.length = steps + 1 ∧
      times2.Pairwise (· < ·) := by
  have hsr : (0 : ℝ) < (steps : ℝ) := by exact_mod_cast hsteps
  have hstep : (0 : ℝ) < time / (steps : ℝ) := div_pos htime hsr
  obtain ⟨net2, phs2, hloop, hlen⟩ :=
    static_loop_ok solution (time / (steps : ℝ)) (time / (steps : ℝ) / 10) hsol
      (numpy_arange (time / (steps : ℝ)) (time + time / (steps : ℝ)) (time / (steps : ℝ)))
      net [0] [phases_list net]
  have harange := numpy_arange_static time steps hsteps htime
  rw [harange] at hloop hlen
  refine ⟨net2, (0 : ℝ) :: (List.range steps).map
      (fun (k : ℕ) => time / (steps : ℝ) + (k : ℝ) * (time / (steps : ℝ))), phs2,
      ?_, rfl, ?_, ?_, ?_⟩
  · show static_loop solution (time / (steps : ℝ)) (time / (steps : ℝ) / 10) true
        (numpy_arange (time / (steps : ℝ)) (time + time / (steps : ℝ)) (time / (steps : ℝ)))
        net (dyn_output.lists [0] [phases_list net]) = _
    rw [harange]
    exact hloop
  · simp
  · rw [hlen]
    simp
    omega
  · exact times_pairwise steps (time / (steps : ℝ)) hstep

/-- C8 witness: the theorem applied to the single-oscillator network with
`steps = 1`, `time = 1` and the FAST solver. -/
theorem simulate_static_collect_spec_witness :
    ∃ net2 times2 phs2,
      simulate_static netA 1 1 solve_type.FAST true = Except.ok (net2, dyn_output.lists times2 phs2) ∧
      times2 = (0 : ℝ) :: (List.range 1).map
        (fun (k : ℕ) => 1 / ((1 : ℕ) : ℝ) + (k : ℝ) * (1 / ((1 : ℕ) : ℝ))) ∧
      times2.length = 1 + 1 ∧ phs2.length = 1 + 1 ∧
      times2.Pairwise (· < ·) :=
  simulate_static_collect_spec netA 1 1 solve_type.FAST (by norm_num) (by norm_num)
    (Or.inl rfl)

theorem simulate_dynamic_loop_zero (solution : solve_type) (collect : Bool)
    (order step int_step threshold : ℝ) (net : sync_network) (tc prev cur : ℝ)
    (out : dyn_output) :
    simulate_dynamic_loop solution collect order step int_step threshold 0
        net tc prev cur out =
      if cur < order then none
      else some (Except.ok (dyn_result.mk out false prev cur)) := rfl

theorem simulate_dynamic_loop_succ (solution : solve_type) (collect : Bool)
    (order step int_step threshold : ℝ) (fuel : ℕ) (net : sync_network)
    (tc prev cur : ℝ) (out : dyn_output) :
    simulate_dynamic_loop solution collect order step int_step threshold (fuel + 1)
        net tc prev cur out =
      if cur < order then
        match _calculate_phases net solution tc step int_step with
        | Except.error e => some (Except.error e)
        | Except.ok ps =>
          if |sync_local_order (set_phases net ps) - cur| < threshold then
            some (Except.ok (dyn_result.mk
              (static_append collect out (tc + step) ps) true cur
              (sync_local_order (set_phases net ps))))
          else
            simulate_dynamic_loop solution collect order step int_step threshold fuel
              (set_phases net ps) (tc + step) cur
              (sync_local_order (set_phases net ps))
              (static_append collect out (tc + step) ps)
      else some (Except.ok (dyn_result.mk out false prev cur)) := rfl

theorem simulate_dynamic_loop_succ_ok (solution : solve_type) (collect : Bool)
    (order step int_step threshold : ℝ) (fuel : ℕ) (net : sync_network)
    (tc prev cur : ℝ) (out : dyn_output) (ps : List ℝ) (hc : cur < order)
    (hps : _calculate_phases net solution tc step int_step = Except.ok ps) :
    simulate_dynamic_loop solution collect order step int_step threshold (fuel + 1)
        net tc prev cur out =
      if |sync_local_order (set_phases net ps) - cur| < threshold then
        some (Except.ok (dyn_result.mk
          (static_append collect out (tc + step) ps) true cur
          (sync_local_order (set_phases net ps))))
      else
        simulate_dynamic_loop solution collect order step int_step threshold fuel
          (set_phases net ps) (tc + step) cur
          (sync_local_order (set_phases net ps))
          (static_append collect out (tc + step) ps) := by
  rw [simulate_dynamic_loop_succ, if_pos hc, hps]

theorem simulate_dynamic_loop_return (solution : solve_type) (collect : Bool)
    (order step int_step threshold : ℝ) :
    ∀ (fuel : ℕ) (net : sync_network) (tc prev cur : ℝ) (out : dyn_output)
      (res : dyn_result),
      simulate_dynamic_loop solution collect order step int_step threshold fuel
          net tc prev cur out = some (Except.ok res) →
      order ≤ res.final_order ∨
        (|res.final_order - res.prev_order| < threshold ∧ res.warned = true) := by
  intro fuel
  induction fuel with
  | zero =>
    intro net tc prev cur out res h
    rw [simulate_dynamic_loop_zero] at h
    by_cases hc : cur < order
    · rw [if_pos hc] at h
      simp at h
    · rw [if_neg hc] at h
      simp only [Option.some.injEq, Except.ok.injEq] at h
      subst h
      left
      exact not_lt.mp hc
  | succ fuel ih =>
    intro net tc prev cur out res h
    by_cases hc : cur < order
    · cases hcp : _calculate_phases net solution tc step int_step with
      | error e =>
        rw [simulate_dynamic_loop_succ, if_pos hc, hcp] at h
        simp at h
      | ok ps =>
        rw [simulate_dynamic_loop_succ_ok solution collect order step int_step
          threshold fuel net tc prev cur out ps hc hcp] at h
        by_cases hth : |sync_local_order (set_phases net ps) - cur| < threshold
        · rw [if_pos hth] at h
          simp only [Option.some.injEq, Except.ok.injEq] at h
          subst h
          right
          exact ⟨hth, rfl⟩
        · rw [if_neg hth] at h
          exact ih _ _ _ _ _ _ h
    · rw [simulate_dynamic_loop_succ, if_neg hc] at h
      simp only [Option.some.injEq, Except.ok.injEq] at h
      subst h
      left
      exact not_lt.mp hc

/-- C9: whenever `simulate_dynamic` returns normally (it neither raised nor
is still looping), then at the moment of return either the current local
order reached the requested target order, or the absolute change in local
order between the last two consecutive iterations was below
`threshold_changes`; in the latter case the warning branch ran
(`warned = true` models the printed diagnostic of line 265) and the collected
trajectory is returned inside `Except.ok`, a valid result, not an error. -/
theorem simulate_dynamic_return_spec (net : sync_network) (order : ℝ)
    (solution : solve_type) (collect : Bool) (step int_step threshold : ℝ)
    (fuel : ℕ) (res : dyn_result)
    (h : simulate_dynamic net order solution collect step int_step threshold fuel =
      some (Except.ok res)) :
    order ≤ res.final_order ∨
      (|res.final_order - res.prev_order| < threshold ∧ res.warned = true) :=
  simulate_dynamic_loop_return solution collect order step int_step threshold fuel
    net 0 0 (sync_local_order net) _ res h

theorem sync_local_order_no_conn (net : sync_network)
    (h : ∀ i j, net.has_connection i j = false) : sync_local_order net = 0 := by
  have he : exp_amount net = 0 := by
    unfold exp_amount
    refine Finset.sum_eq_zero fun i _ => Finset.sum_eq_zero fun j _ => ?_
    rw [h i j]
    simp
  unfold sync_local_order
  rw [he, zero_div]

theorem netA_local_order : sync_local_order netA = 0 :=
  sync_local_order_no_conn netA (fun _ _ => rfl)

/-- C10: calling `simulate_dynamic` with `collect_dynamic = False` on a
network whose initial local order already reaches the target: the loop body
never executes and the returned pair is the two empty lists of lines 237-238
(`dyn_output.lists [] []`), not a scalar time paired with a phase vector. -/
theorem simulate_dynamic_converged_empty (net : sync_network) (order : ℝ)
    (solution : solve_type) (step int_step threshold : ℝ) (fuel : ℕ)
    (h : order ≤ sync_local_order net) :
    simulate_dynamic net order solution false step int_step threshold fuel =
      some (Except.ok (dyn_result.mk (dyn_output.lists [] []) false 0
        (sync_local_order net))) := by
  unfold simulate_dynamic
  cases fuel with
  | zero =>
    rw [simulate_dynamic_loop_zero, if_neg (not_lt.mpr h)]
    rfl
  | succ fuel =>
    rw [simulate_dynamic_loop_succ, if_neg (not_lt.mpr h)]
    rfl

/-- C10 witness: the single-oscillator network with no connections has local
order `0`, which already meets the target order `0`. -/
theorem simulate_dynamic_converged_empty_witness :
    simulate_dynamic netA 0 solve_type.FAST false 1 1 1 3 =
      some (Except.ok (dyn_result.mk (dyn_output.lists [] []) false 0
        (sync_local_order netA))) :=
  simulate_dynamic_converged_empty netA 0 solve_type.FAST 1 1 1 3
    (le_of_eq netA_local_order.symm)

theorem phase_normalization_zero : phase_normalization 0 = 0 := by
  have hpi := Real.pi_pos
  rw [phase_normalization_def]
  exact phase_norm_loop_of_mem _ _ le_rfl (by linarith)

theorem netA_kuramoto : phase_kuramoto netA 0 0 0 = 0 := by
  unfold phase_kuramoto
  have h1 : netA.freq 0 = 0 := rfl
  have h2 : ∀ k, netA.has_connection 0 k = false := fun _ => rfl
  rw [h1]
  have h3 : (∑ k in Finset.range netA.num_osc,
      if netA.has_connection 0 k = true then Real.sin (netA.phases k - 0) else 0) = 0 := by
    refine Finset.sum_eq_zero fun k _ => ?_
    rw [h2 k]
    simp
  rw [h3]
  simp

theorem netA_calc_one : calc_phase_one netA solve_type.FAST 0 1 1 0 = Except.ok 0 := by
  show Except.ok (phase_normalization
    (netA.phases 0 + phase_kuramoto netA (netA.phases 0) 0 0)) = _
  have h1 : netA.phases 0 = 0 := rfl
  rw [h1, netA_kuramoto, add_zero, phase_normalization_zero]

theorem netA_calc : _calculate_phases netA solve_type.FAST 0 1 1 = Except.ok [0] := by
  show calc_loop (calc_phase_one netA solve_type.FAST 0 1 1) (List.range netA.num_osc) = _
  rw [show List.range netA.num_osc = [0] from rfl]
  show (match calc_phase_one netA solve_type.FAST 0 1 1 0 with
    | Except.error e => Except.error e
    | Except.ok v =>
      match calc_loop (calc_phase_one netA solve_type.FAST 0 1 1) [] with
      | Except.error e => Except.error e
      | Except.ok vs => Except.ok (v :: vs)) = Except.ok [0]
  rw [netA_calc_one]
  rfl

theorem netA2_local_order : sync_local_order (set_phases netA [0]) = 0 :=
  sync_local_order_no_conn (set_phases netA [0]) (fun _ _ => rfl)

theorem netA_dynamic_run :
    simulate_dynamic netA 1 solve_type.FAST false 1 1 1 1 =
      some (Except.ok (dyn_result.mk (dyn_output.scalars 1 [0]) true 0 0)) := by
  unfold simulate_dynamic
  rw [netA_local_order]
  show simulate_dynamic_loop solve_type.FAST false 1 1 1 1 (0 + 1) netA 0 0 0
      (dyn_output.lists [] []) =
    some (Except.ok (dyn_result.mk (dyn_output.scalars 1 [0]) true 0 0))
  rw [simulate_dynamic_loop_succ_ok solve_type.FAST false 1 1 1 1 0 netA 0 0 0
    (dyn_output.lists [] []) [0] (by norm_num) netA_calc]
  rw [netA2_local_order]
  rw [if_pos (by norm_num : |(0 : ℝ) - 0| < 1)]
  norm_num [static_append]

/-- C9 witness: on the no-connection single-oscillator network with target
order `1` and threshold `1`, one iteration stalls and returns normally; the
theorem yields the disjunction for the returned result. -/
theorem simulate_dynamic_return_spec_witness :
    (1 : ℝ) ≤ (dyn_result.mk (dyn_output.scalars 1 [0]) true (0 : ℝ) (0 : ℝ)).final_order ∨
      (|(dyn_result.mk (dyn_output.scalars 1 [0]) true (0 : ℝ) (0 : ℝ)).final_order -
          (dyn_result.mk (dyn_output.scalars 1 [0]) true (0 : ℝ) (0 : ℝ)).prev_order| < 1 ∧
        (dyn_result.mk (dyn_output.scalars 1 [0]) true (0 : ℝ) (0 : ℝ)).warned = true) :=
  simulate_dynamic_return_spec netA 1 solve_type.FAST false 1 1 1 1 _ netA_dynamic_run
